import Mathlib

/-!
Shallow embedding of the `emu` virtual machine (`src/cpu.rs`) in Lean 4.

The CPU owns a 65535-cell byte memory (`memory: [u8; 0xFFFF]`), a 4-cell
register file (`registers: [u8; 4]`) and a 16-bit program counter.  Rust
panics (array index out of bounds, the explicit invalid-register panic,
arithmetic overflow under debug assertions, `unimplemented!()` on an unknown
opcode, slice-range failure in `load`) are modelled as values of `EmuError`;
fallible operations return `Except EmuError _`.  The presentation/input
adapter (`ppu.rs`) is external to the execution core and is not modelled:
it runs before the fetch of each iteration and touches no state that the
per-instruction theorems below refer to.
-/

namespace Emu

/-- One 8-bit cell, the value type of both memory and registers (`u8`). -/
abbrev Byte := Fin 256

/-- The ways a run of the interpreter can abort.  Each constructor models a
Rust panic site in `src/cpu.rs`:
* `invalidRegister b` — the explicit panic in `mem_read_next_for_register_index`
  when the operand byte `b` fails the `<= 4` check;
* `regIndexOOB i` — `self.registers[i]` with `i` outside `0..3`;
* `memIndexOOB a` — `self.memory[a]` with `a` outside `0..65534`;
* `arithOverflow` — `+=` / `-=` on `u8` overflowing (debug assertions);
* `unknownOpcode op` — the `unimplemented!()` arm of the opcode match;
* `sliceRangeOOB e` — the slice `memory[0x8000..e]` in `load` with `e > 65535`. -/
inductive EmuError where
  | invalidRegister (b : Nat)
  | regIndexOOB (i : Nat)
  | memIndexOOB (a : Nat)
  | arithOverflow
  | unknownOpcode (op : Nat)
  | sliceRangeOOB (e : Nat)
  deriving DecidableEq

/-- The CPU state of `src/cpu.rs`.  `registers` models `[u8; 4]` (only
indices `0..3` are meaningful; every access goes through the checked
`reg_read`/`reg_write`), `memory` models `[u8; 0xFFFF]` (65535 cells,
indices `0..65534`, checked by `mem_read`/`mem_write`), `pc` is the `u16`
program counter. -/
structure CPU where
  registers : Nat → Byte
  memory : Nat → Byte
  pc : Nat

/-- `CPU::new()`: zeroed registers and memory, `pc = 0`. -/
def CPU.new : CPU :=
  { registers := fun _ => 0, memory := fun _ => 0, pc := 0 }

/-- `self.registers[i]` as a read: Rust's implicit bounds check on the
4-element array, an out-of-range index is an index panic. -/
def reg_read (c : CPU) (i : Nat) : Except EmuError Byte :=
  if i < 4 then .ok (c.registers i) else .error (.regIndexOOB i)

/-- `self.registers[i] = v`: bounds-checked write to the register file. -/
def reg_write (c : CPU) (i : Nat) (v : Byte) : Except EmuError CPU :=
  if i < 4 then
    .ok { c with registers := fun j => if j = i then v else c.registers j }
  else .error (.regIndexOOB i)

/-- `mem_read`: `self.memory[addr as usize]`, bounds-checked against the
65535-element array. -/
def mem_read (c : CPU) (addr : Nat) : Except EmuError Byte :=
  if addr < 65535 then .ok (c.memory addr) else .error (.memIndexOOB addr)

/-- `mem_write`: `self.memory[addr as usize] = data`. -/
def mem_write (c : CPU) (addr : Nat) (data : Byte) : Except EmuError CPU :=
  if addr < 65535 then
    .ok { c with memory := fun a => if a = addr then data else c.memory a }
  else .error (.memIndexOOB addr)

/-- `mem_read_next`: read the byte at `pc`, then `pc += 1`. -/
def mem_read_next (c : CPU) : Except EmuError (Byte × CPU) := do
  let res ← mem_read c c.pc
  .ok (res, { c with pc := c.pc + 1 })

/-- `mem_read_next_as_usize`: `mem_read_next() as usize` (no validity check). -/
def mem_read_next_as_usize (c : CPU) : Except EmuError (Nat × CPU) := do
  let (b, c) ← mem_read_next c
  .ok (b.val, c)

/-- `mem_read_next_for_register_index`: reads the operand byte at `pc` and
accepts it when `<= 4` (the source's check), otherwise the explicit
invalid-register panic. -/
def mem_read_next_for_register_index (c : CPU) : Except EmuError (Nat × CPU) := do
  let b ← mem_read c c.pc
  if b.val ≤ 4 then
    mem_read_next_as_usize c
  else
    .error (.invalidRegister b.val)

/-- `mem_read_u16_be`: big-endian 16-bit read, `(lo << 8) | hi` where `lo`
is the byte at `pos` and `hi` the byte at `pos + 1`. -/
def mem_read_u16_be (c : CPU) (pos : Nat) : Except EmuError Nat := do
  let lo ← mem_read c pos
  let hi ← mem_read c (pos + 1)
  .ok ((lo.val <<< 8) ||| hi.val)

/-- `mem_read_u16_be_next`: `mem_read_u16_be` at `pc`, then `pc += 2`. -/
def mem_read_u16_be_next (c : CPU) : Except EmuError (Nat × CPU) := do
  let res ← mem_read_u16_be c c.pc
  .ok (res, { c with pc := c.pc + 2 })

/-- `u8::wrapping_add`. -/
def wrapping_add (a b : Byte) : Byte :=
  ⟨(a.val + b.val) % 256, Nat.mod_lt _ (by decide)⟩

/-- `u8::wrapping_sub` (two's-complement wraparound). -/
def wrapping_sub (a b : Byte) : Byte :=
  ⟨(a.val + 256 - b.val) % 256, Nat.mod_lt _ (by decide)⟩

/-- `u8 +` under overflow checks: `a + 1` etc. traps when the true sum
leaves `0..255` (this is what `+=` compiles to with debug assertions, the
mode `cargo test`/`cargo run` use by default). -/
def checked_add (a b : Byte) : Except EmuError Byte :=
  if h : a.val + b.val < 256 then .ok ⟨a.val + b.val, h⟩ else .error .arithOverflow

/-- `u8 -` under overflow checks: traps when the subtrahend exceeds the
minuend. -/
def checked_sub (a b : Byte) : Except EmuError Byte :=
  if b.val ≤ a.val then .ok ⟨a.val - b.val, Nat.lt_of_le_of_lt (Nat.sub_le _ _) a.isLt⟩
  else .error .arithOverflow

/-- The non-HALT arms of the opcode match in `CPU::run`, entered with `pc`
already advanced past the opcode byte.  Returns the state for the next loop
iteration, or the error that aborts the run.  Each arm follows the source's
order of operand reads, register accesses and writes. -/
def execInstr (c : CPU) (op : Nat) : Except EmuError CPU :=
  match op with
  | 0xFF => .ok c
  | 0x10 => do
      let (reg_index, c) ← mem_read_next_for_register_index c
      let (value, c) ← mem_read_next c
      reg_write c reg_index value
  | 0x11 => do
      let (reg_index, c) ← mem_read_next_for_register_index c
      let (src_index, c) ← mem_read_next_as_usize c
      let content ← reg_read c src_index
      reg_write c reg_index content
  | 0x12 => do
      let (reg_index, c) ← mem_read_next_for_register_index c
      let (address, c) ← mem_read_u16_be_next c
      let v ← mem_read c address
      reg_write c reg_index v
  | 0x20 => do
      let (address, c) ← mem_read_u16_be_next c
      let (reg_index, c) ← mem_read_next_for_register_index c
      let v ← reg_read c reg_index
      mem_write c address v
  | 0x30 => do
      let (i1, c) ← mem_read_next_for_register_index c
      let reg1 ← reg_read c i1
      let (i2, c) ← mem_read_next_for_register_index c
      let reg2 ← reg_read c i2
      let (i3, c) ← mem_read_next_for_register_index c
      reg_write c i3 (if reg1 = reg2 then 1 else 0)
  | 0x31 => do
      let (i1, c) ← mem_read_next_for_register_index c
      let reg ← reg_read c i1
      let value ← mem_read c c.pc
      let c := { c with pc := c.pc + 1 }
      let (i3, c) ← mem_read_next_for_register_index c
      reg_write c i3 (if reg = value then 1 else 0)
  | 0x32 => do
      let (i1, c) ← mem_read_next_for_register_index c
      let reg1 ← reg_read c i1
      let (i2, c) ← mem_read_next_for_register_index c
      let reg2 ← reg_read c i2
      let (i3, c) ← mem_read_next_for_register_index c
      reg_write c i3 (if reg1 > reg2 then 1 else 0)
  | 0x33 => do
      let (i1, c) ← mem_read_next_for_register_index c
      let reg1 ← reg_read c i1
      let (i2, c) ← mem_read_next_for_register_index c
      let reg2 ← reg_read c i2
      let (i3, c) ← mem_read_next_for_register_index c
      reg_write c i3 (if reg1 < reg2 then 1 else 0)
  | 0x40 => do
      let (i1, c) ← mem_read_next_for_register_index c
      let reg ← reg_read c i1
      let target ← mem_read_u16_be c c.pc
      if reg.val = 1 then
        .ok { c with pc := target }
      else
        .ok { c with pc := c.pc + 2 }
  | 0x50 => do
      let (reg_index, c) ← mem_read_next_for_register_index c
      let v ← reg_read c reg_index
      let v ← checked_add v 1
      reg_write c reg_index v
  | 0x51 => do
      let (reg_index, c) ← mem_read_next_for_register_index c
      let v ← reg_read c reg_index
      let v ← checked_sub v 1
      reg_write c reg_index v
  | 0x52 => do
      let (i1, c) ← mem_read_next_for_register_index c
      let (i2, c) ← mem_read_next_for_register_index c
      let (i3, c) ← mem_read_next_for_register_index c
      let r1 ← reg_read c i1
      let r2 ← reg_read c i2
      reg_write c i3 (wrapping_add r1 r2)
  | 0x53 => do
      let (i1, c) ← mem_read_next_for_register_index c
      let (i2, c) ← mem_read_next_for_register_index c
      let (i3, c) ← mem_read_next_for_register_index c
      let r1 ← reg_read c i1
      let r2 ← reg_read c i2
      reg_write c i3 (wrapping_sub r1 r2)
  | 0x54 => do
      let (i1, c) ← mem_read_next_for_register_index c
      let (val2, c) ← mem_read_next c
      let (i3, c) ← mem_read_next_for_register_index c
      let r1 ← reg_read c i1
      reg_write c i3 (wrapping_add r1 val2)
  | 0x55 => do
      let (i1, c) ← mem_read_next_for_register_index c
      let (val2, c) ← mem_read_next c
      let (i3, c) ← mem_read_next_for_register_index c
      let r1 ← reg_read c i1
      reg_write c i3 (wrapping_sub r1 val2)
  | _ => .error (.unknownOpcode op)

/-- Outcome of one loop iteration: HALT (`0x00 => return`) or a next state. -/
inductive StepResult where
  | halt (c : CPU)
  | next (c : CPU)

/-- One fetch-decode-execute iteration of `CPU::run` (the adapter calls that
precede the fetch are external, §6 of the spec): fetch the opcode at `pc`,
`pc += 1`, then either return (opcode `0x00`) or execute the instruction. -/
def step (c : CPU) : Except EmuError StepResult := do
  let opcode ← mem_read c c.pc
  let c := { c with pc := c.pc + 1 }
  if opcode.val = 0x00 then
    .ok (.halt c)
  else
    (execInstr c opcode.val).map .next

/-- Terminal outcome of `CPU::run`, plus fuel exhaustion for the embedding. -/
inductive RunResult where
  | halted (c : CPU)
  | failed (e : EmuError)
  | fuelOut (c : CPU)

/-- `CPU::run`, fuel-indexed: iterate `step` until HALT or an error. -/
def run (fuel : Nat) (c : CPU) : RunResult :=
  match fuel with
  | 0 => .fuelOut c
  | n + 1 =>
    match step c with
    | .error e => .failed e
    | .ok (.halt c') => .halted c'
    | .ok (.next c') => run n c'

/-- `CPU::load`: copy the program to `memory[0x8000 .. 0x8000 + len]` and set
`pc = 0x8000`.  The slice of the 65535-byte array fails (a panic in the
source) when its end `0x8000 + len` exceeds 65535. -/
def load (c : CPU) (program : List Byte) : Except EmuError CPU :=
  if 0x8000 + program.length ≤ 65535 then
    .ok { c with
          memory := fun a =>
            if 0x8000 ≤ a ∧ a < 0x8000 + program.length then
              program.getD (a - 0x8000) 0
            else c.memory a,
          pc := 0x8000 }
  else .error (.sliceRangeOOB (0x8000 + program.length))

/-- A CPU whose memory holds `bytes` starting at address 0, with `pc = 0` and
register file `regs`: a convenient concrete state for evaluating single
instructions (the interpreter is position-independent, so placing code at 0
exercises the same handlers as 0x8000). -/
def progCPU (bytes : List Byte) (regs : Nat → Byte) : CPU :=
  { registers := regs, memory := fun a => bytes.getD a 0, pc := 0 }

/-- All-zero register file. -/
def zeroRegs : Nat → Byte := fun _ => 0

/-- Register file with `r0 = 255`, others 0. -/
def regs255 : Nat → Byte := fun i => if i = 0 then 255 else 0

/-- Register file with `r0 = 255`, `r1 = 5`, others 0. -/
def regsAdd : Nat → Byte := fun i => if i = 0 then 255 else if i = 1 then 5 else 0

/-- Concrete state for the register-index bound: `INC` with operand byte 4 at
pc 0, and `INC` with operand byte 5 at pc 2. -/
def cpuIdx : CPU := progCPU [0x50, 0x04, 0x50, 0x05] zeroRegs

/-- Concrete state for `LOAD_REGISTER` with src operand byte 7. -/
def cpuLoadReg : CPU := progCPU [0x11, 0x00, 0x07] zeroRegs

/-- `JUMP_IF` to 0x8005 with the condition register holding 1. -/
def cpuJT : CPU :=
  progCPU [0x40, 0x00, 0x80, 0x05, 0x00] (fun i => if i = 0 then 1 else 0)

/-- `JUMP_IF` to 0x8005 with the condition register holding 0. -/
def cpuJF : CPU := progCPU [0x40, 0x00, 0x80, 0x05, 0x00] zeroRegs

/-- `CMP_LT_REG` on `r0 = 3`, `r1 = 9`, result into `r2`. -/
def cpuCmp : CPU :=
  progCPU [0x33, 0x00, 0x01, 0x02] (fun i => if i = 0 then 3 else if i = 1 then 9 else 0)

/-- Two operand bytes `0x12 0x34` at pc 0, for big-endian address decoding. -/
def cpuBE : CPU := progCPU [0x12, 0x34] zeroRegs

end Emu

namespace Emu

theorem bind_ok (a : α) (f : α → Except EmuError β) :
    (Except.ok a : Except EmuError α) >>= f = f a := rfl

theorem bind_err (e : EmuError) (f : α → Except EmuError β) :
    (Except.error e : Except EmuError α) >>= f = Except.error e := rfl

theorem map_ok (f : α → β) (a : α) :
    (Except.ok a : Except EmuError α).map f = .ok (f a) := rfl

theorem map_err (f : α → β) (e : EmuError) :
    (Except.error e : Except EmuError α).map f = .error e := rfl

theorem mem_read_ok (c : CPU) (a : Nat) (h : a < 65535) :
    mem_read c a = .ok (c.memory a) := by
  simp [mem_read, h]

theorem reg_read_ok (c : CPU) (i : Nat) (h : i < 4) :
    reg_read c i = .ok (c.registers i) := by
  simp [reg_read, h]

theorem reg_write_ok (c : CPU) (i : Nat) (v : Byte) (h : i < 4) :
    reg_write c i v =
      .ok { c with registers := fun j => if j = i then v else c.registers j } := by
  simp [reg_write, h]

theorem rix_ok (c : CPU) (h1 : c.pc < 65535) (h2 : (c.memory c.pc).val ≤ 4) :
    mem_read_next_for_register_index c =
      .ok ((c.memory c.pc).val, { c with pc := c.pc + 1 }) := by
  simp [mem_read_next_for_register_index, mem_read_next_as_usize, mem_read_next,
    mem_read_ok, bind_ok, h1, h2]

theorem mem_read_next_ok (c : CPU) (h : c.pc < 65535) :
    mem_read_next c = .ok (c.memory c.pc, { c with pc := c.pc + 1 }) := by
  simp [mem_read_next, mem_read_ok, bind_ok, h]

theorem mul_two_pow_lor_eq_add :
    ∀ (k l h : Nat), h < 2 ^ k → (l * 2 ^ k) ||| h = l * 2 ^ k + h := by
  intro k
  induction k with
  | zero =>
    intro l h hh
    have h0 : h = 0 := by simpa using Nat.lt_one_iff.mp (by simpa using hh)
    subst h0
    simp
  | succ n ih =>
    intro l h hh
    have hp : (2 : Nat) ^ (n + 1) = 2 ^ n * 2 := pow_succ 2 n
    have hdiv : Nat.div2 h < 2 ^ n := by
      rw [Nat.div2_val]
      omega
    have hbit : Nat.bit (Nat.bodd h) (Nat.div2 h) = h := Nat.bit_decomp h
    have hl : l * 2 ^ (n + 1) = Nat.bit false (l * 2 ^ n) := by
      rw [Nat.bit_val]
      simp
      ring
    calc (l * 2 ^ (n + 1)) ||| h
        = Nat.bit false (l * 2 ^ n) ||| Nat.bit (Nat.bodd h) (Nat.div2 h) := by
          rw [← hl, hbit]
      _ = Nat.bit (false || Nat.bodd h) ((l * 2 ^ n) ||| Nat.div2 h) := Nat.lor_bit ..
      _ = Nat.bit (Nat.bodd h) (l * 2 ^ n + Nat.div2 h) := by
          rw [Bool.false_or, ih _ _ hdiv]
      _ = l * 2 ^ (n + 1) + h := by
          rw [Nat.bit_val, hp]
          have hb := Nat.bodd_add_div2 h
          have hmul : l * (2 ^ n * 2) = 2 * (l * 2 ^ n) := by ring
          omega

theorem byte_lor_eq_add (l h : Nat) (hh : h < 256) : (l <<< 8) ||| h = 256 * l + h := by
  have h2 : (2 : Nat) ^ 8 = 256 := by norm_num
  have key := mul_two_pow_lor_eq_add 8 l h (by rw [h2]; exact hh)
  rw [Nat.shiftLeft_eq]
  rw [h2] at key ⊢
  omega

theorem u16_ok (c : CPU) (pos : Nat) (h : pos + 1 < 65535) :
    mem_read_u16_be c pos =
      .ok (256 * (c.memory pos).val + (c.memory (pos + 1)).val) := by
  simp [mem_read_u16_be, mem_read_ok, bind_ok, h, show pos < 65535 by omega,
    byte_lor_eq_add ((c.memory pos).val) ((c.memory (pos + 1)).val)
      (c.memory (pos + 1)).isLt]

/-- A successful `step` that reports HALT can only come from opcode byte 0 at
`pc`, and it returns the fetched state with `pc` advanced by exactly 1. -/
theorem step_halt_inv (c x : CPU) (h : step c = .ok (.halt x)) :
    (c.memory c.pc).val = 0 ∧ x = { c with pc := c.pc + 1 } := by
  by_cases hpc : c.pc < 65535
  · rw [step] at h
    rw [mem_read_ok c c.pc hpc] at h
    rw [bind_ok] at h
    by_cases h0 : (c.memory c.pc).val = 0
    · rw [if_pos h0] at h
      refine ⟨h0, ?_⟩
      cases h
      rfl
    · rw [if_neg h0] at h
      cases hE : execInstr { c with pc := c.pc + 1 } (c.memory c.pc).val with
      | ok y => rw [hE, map_ok] at h; cases h
      | error e => rw [hE, map_err] at h; cases h
  · rw [step] at h
    have hmr : mem_read c c.pc = .error (.memIndexOOB c.pc) := by simp [mem_read, hpc]
    rw [hmr, bind_err] at h
    cases h

/-- Claim C1 (refuted by the code, recorded as a code bug): the source's
register-index check is `<= 4`, so the operand byte 4 passes decoding
(`mem_read_next_for_register_index` returns it) and the instruction then
performs the out-of-range register access `registers[4]` — an index panic,
not `InvalidRegisterIndex`.  Bytes ≥ 5 do fail decoding as the claim says. -/
theorem register_index_check_admits_four :
    (∃ c', mem_read_next_for_register_index { cpuIdx with pc := 1 } = .ok (4, c')) ∧
    step cpuIdx = .error (.regIndexOOB 4) ∧
    step { cpuIdx with pc := 2 } = .error (.invalidRegister 5) :=
  ⟨⟨_, rfl⟩, rfl, rfl⟩

/-- Claim C2 (refuted by the code, recorded as a code bug): `INC` and `DEC`
use plain `+=` / `-=`, which trap on u8 overflow under Rust's overflow
checks instead of wrapping: `INC` on a register holding 255 and `DEC` on a
register holding 0 abort the run.  `ADD_REG` (0x52) does wrap as claimed:
255 + 5 stores 4. -/
theorem inc_dec_trap_on_overflow :
    step (progCPU [0x50, 0x00] regs255) = .error .arithOverflow ∧
    step (progCPU [0x51, 0x00] zeroRegs) = .error .arithOverflow ∧
    (∃ c', step (progCPU [0x52, 0x00, 0x01, 0x02] regsAdd) = .ok (.next c') ∧
      c'.registers 2 = 4 ∧ c'.pc = 4) := by
  refine ⟨rfl, rfl, ⟨_, rfl, ?_, rfl⟩⟩
  decide

/-- Claim C3 (confirmed): executing `JUMP_IF` (0x40) with the condition
register holding exactly 1 sets `pc` to the big-endian 16-bit target,
discarding the normal advance; with any other condition value `pc` advances
by exactly 2 past the target bytes (4 past the opcode), and registers and
memory are untouched in both cases. -/
theorem jump_if_sem (c : CPU) (i : Nat) (hi : i < 4)
    (hpc : c.pc + 3 < 65535)
    (h0 : (c.memory c.pc).val = 0x40)
    (h1 : (c.memory (c.pc + 1)).val = i) :
    step c =
      .ok (.next
        { c with pc :=
            if (c.registers i).val = 1
            then 256 * (c.memory (c.pc + 2)).val + (c.memory (c.pc + 3)).val
            else c.pc + 4 }) := by
  by_cases hr : (c.registers i).val = 1 <;>
    simp [step, execInstr, mem_read_ok, rix_ok, reg_read_ok, u16_ok, bind_ok, map_ok,
      h0, h1, hi, hr, Nat.le_of_lt hi, hpc,
      show c.pc < 65535 by omega, show c.pc + 1 < 65535 by omega,
      show c.pc + 2 < 65535 by omega,
      show c.pc + 1 + 1 = c.pc + 2 by omega,
      show c.pc + 2 + 1 = c.pc + 3 by omega,
      show c.pc + 2 + 2 = c.pc + 4 by omega]

/-- Witness for `jump_if_sem`: both branches at concrete states — condition
register 1 (jump taken to 0x8005) and condition register 0 (fall through). -/
theorem jump_if_sem_witness :
    ((0 : Nat) < 4 ∧ cpuJT.pc + 3 < 65535 ∧ (cpuJT.memory cpuJT.pc).val = 0x40 ∧
      (cpuJT.memory (cpuJT.pc + 1)).val = 0) ∧
    step cpuJT =
      .ok (.next
        { cpuJT with pc :=
            if (cpuJT.registers 0).val = 1
            then 256 * (cpuJT.memory (cpuJT.pc + 2)).val + (cpuJT.memory (cpuJT.pc + 3)).val
            else cpuJT.pc + 4 }) ∧
    step cpuJF =
      .ok (.next
        { cpuJF with pc :=
            if (cpuJF.registers 0).val = 1
            then 256 * (cpuJF.memory (cpuJF.pc + 2)).val + (cpuJF.memory (cpuJF.pc + 3)).val
            else cpuJF.pc + 4 }) :=
  ⟨⟨by decide, by decide, by decide, by decide⟩,
    jump_if_sem cpuJT 0 (by decide) (by decide) (by decide) (by decide),
    jump_if_sem cpuJF 0 (by decide) (by decide) (by decide) (by decide)⟩

/-- Claim C4 (refuted by the code, recorded as a code bug): the src operand
of `LOAD_REGISTER` (0x11) is read through the unvalidated
`mem_read_next_as_usize`, so a src byte of 7 leads to the out-of-range
register access `registers[7]` (an index panic) instead of the decoding
error `InvalidRegisterIndex` that the validating reader would raise. -/
theorem load_register_src_unvalidated :
    step cpuLoadReg = .error (.regIndexOOB 7) ∧
    mem_read_next_for_register_index { cpuLoadReg with pc := 2 } =
      .error (.invalidRegister 7) :=
  ⟨rfl, rfl⟩

/-- Claim C5 (refuted by the code, recorded as a code bug): loading a
program of 32768 bytes (one past the 32767-byte capacity of
`[0x8000, 65534]`) makes the slice `memory[0x8000..65536]` fail — a panic in
the source, not a reported `ProgramTooLarge` error (no such error exists in
the code).  A 32767-byte program still loads. -/
theorem load_too_large_panics :
    load CPU.new (List.replicate 32768 (0 : Byte)) = .error (.sliceRangeOOB 65536) ∧
    (∃ c', load CPU.new (List.replicate 32767 (0 : Byte)) = .ok c') := by
  constructor
  · rw [load, List.length_replicate, if_neg (by norm_num)]
  · exact ⟨{ CPU.new with
        memory := fun a =>
          if 0x8000 ≤ a ∧ a < 0x8000 + (List.replicate 32767 (0 : Byte)).length
          then (List.replicate 32767 (0 : Byte)).getD (a - 0x8000) 0
          else CPU.new.memory a,
        pc := 0x8000 },
      by rw [load, if_pos (by rw [List.length_replicate])]⟩

/-- Claim C6 (confirmed): for a program that fits, `load` copies its bytes
verbatim to `[0x8000, 0x8000 + len)`, leaves every other memory cell and
the registers unchanged, and sets `pc = 0x8000`. -/
theorem load_sem (c : CPU) (p : List Byte)
    (hlen : 0x8000 + p.length ≤ 65535) :
    ∃ c', load c p = .ok c' ∧ c'.pc = 0x8000 ∧ c'.registers = c.registers ∧
      (∀ i, i < p.length → c'.memory (0x8000 + i) = p.getD i 0) ∧
      (∀ a, a < 0x8000 ∨ 0x8000 + p.length ≤ a → c'.memory a = c.memory a) := by
  refine ⟨{ c with
      memory := fun a =>
        if 0x8000 ≤ a ∧ a < 0x8000 + p.length then p.getD (a - 0x8000) 0
        else c.memory a,
      pc := 0x8000 }, ?_, rfl, rfl, ?_, ?_⟩
  · rw [load, if_pos hlen]
  · intro i hi
    simp [hi, Nat.add_sub_cancel_left]
  · intro a ha
    have hcond : ¬(0x8000 ≤ a ∧ a < 0x8000 + p.length) := by omega
    simp [hcond]

/-- Witness for `load_sem`: loading the one-byte program `[5]` into a fresh
CPU. -/
theorem load_sem_witness :
    (0x8000 + [(5 : Byte)].length ≤ 65535) ∧
    (∃ c', load CPU.new [(5 : Byte)] = .ok c' ∧ c'.pc = 0x8000 ∧
      c'.registers = CPU.new.registers ∧
      (∀ i, i < [(5 : Byte)].length → c'.memory (0x8000 + i) = [(5 : Byte)].getD i 0) ∧
      (∀ a, a < 0x8000 ∨ 0x8000 + [(5 : Byte)].length ≤ a →
        c'.memory a = CPU.new.memory a)) :=
  ⟨by decide, load_sem CPU.new [(5 : Byte)] (by decide)⟩

/-- Claim C7 (confirmed): opcode 0x33 takes three register-index operands
`a`, `b`, `dest` and stores 1 in `registers[dest]` when
`registers[a] < registers[b]` and 0 otherwise — a register-vs-register
comparison (the source comment's register-vs-immediate reading does not
match the code; this theorem pins the implemented behavior, which the spec
follows). -/
theorem cmp_lt_reg_sem (c : CPU) (a b d : Nat)
    (ha : a < 4) (hb : b < 4) (hd : d < 4)
    (hpc : c.pc + 3 < 65535)
    (h0 : (c.memory c.pc).val = 0x33)
    (h1 : (c.memory (c.pc + 1)).val = a)
    (h2 : (c.memory (c.pc + 2)).val = b)
    (h3 : (c.memory (c.pc + 3)).val = d) :
    step c =
      .ok (.next
        { c with
          pc := c.pc + 4,
          registers := fun j =>
            if j = d then (if c.registers a < c.registers b then 1 else 0)
            else c.registers j }) := by
  simp [step, execInstr, mem_read_ok, rix_ok, reg_read_ok, reg_write_ok,
    bind_ok, map_ok, h0, h1, h2, h3, ha, hb, hd, hpc,
    Nat.le_of_lt ha, Nat.le_of_lt hb, Nat.le_of_lt hd,
    show c.pc < 65535 by omega, show c.pc + 1 < 65535 by omega,
    show c.pc + 2 < 65535 by omega,
    show c.pc + 1 + 1 = c.pc + 2 by omega,
    show c.pc + 2 + 1 = c.pc + 3 by omega,
    show c.pc + 3 + 1 = c.pc + 4 by omega]

/-- Witness for `cmp_lt_reg_sem`: `CMP_LT_REG r0 r1 -> r2` on `r0 = 3`,
`r1 = 9`. -/
theorem cmp_lt_reg_sem_witness :
    ((0 : Nat) < 4 ∧ (1 : Nat) < 4 ∧ (2 : Nat) < 4 ∧ cpuCmp.pc + 3 < 65535 ∧
      (cpuCmp.memory cpuCmp.pc).val = 0x33 ∧ (cpuCmp.memory (cpuCmp.pc + 1)).val = 0 ∧
      (cpuCmp.memory (cpuCmp.pc + 2)).val = 1 ∧ (cpuCmp.memory (cpuCmp.pc + 3)).val = 2) ∧
    step cpuCmp =
      .ok (.next
        { cpuCmp with
          pc := cpuCmp.pc + 4,
          registers := fun j =>
            if j = 2 then (if cpuCmp.registers 0 < cpuCmp.registers 1 then 1 else 0)
            else cpuCmp.registers j }) :=
  ⟨⟨by decide, by decide, by decide, by decide, by decide, by decide, by decide, by decide⟩,
    cmp_lt_reg_sem cpuCmp 0 1 2 (by decide) (by decide) (by decide) (by decide)
      (by decide) (by decide) (by decide) (by decide)⟩

/-- Claim C8 (confirmed): a 2-byte address operand is decoded
most-significant-byte first — for consecutive bytes `b0` then `b1` the
decoded address is `256 * b0 + b1` — and `mem_read_u16_be_next` advances
`pc` by exactly 2. -/
theorem u16_be_decode (c : CPU) (x y : Nat)
    (hpc : c.pc + 1 < 65535)
    (h0 : (c.memory c.pc).val = x) (h1 : (c.memory (c.pc + 1)).val = y) :
    mem_read_u16_be c c.pc = .ok (256 * x + y) ∧
      mem_read_u16_be_next c = .ok (256 * x + y, { c with pc := c.pc + 2 }) := by
  constructor
  · rw [u16_ok c c.pc hpc, h0, h1]
  · rw [mem_read_u16_be_next, u16_ok c c.pc hpc, bind_ok, h0, h1]

/-- Witness for `u16_be_decode`: operand bytes `0x12 0x34` decode to
`0x1234`. -/
theorem u16_be_decode_witness :
    (cpuBE.pc + 1 < 65535 ∧ (cpuBE.memory cpuBE.pc).val = 0x12 ∧
      (cpuBE.memory (cpuBE.pc + 1)).val = 0x34) ∧
    mem_read_u16_be cpuBE cpuBE.pc = .ok (256 * 0x12 + 0x34) ∧
    mem_read_u16_be_next cpuBE = .ok (256 * 0x12 + 0x34, { cpuBE with pc := cpuBE.pc + 2 }) :=
  ⟨⟨by decide, by decide, by decide⟩,
    u16_be_decode cpuBE 0x12 0x34 (by decide) (by decide) (by decide)⟩

/-- Claim C9 (confirmed): memory has exactly 65535 cells — every address
below 65535 reads a byte, while `mem_read` and `mem_write` at 0xFFFF are
out of bounds, and a 16-bit read starting at 0xFFFE touches the
out-of-bounds cell 0xFFFF; all three return no byte (an error) in the
embedding. -/
theorem mem_top_oob (c : CPU) (v : Byte) :
    mem_read c 65535 = .error (.memIndexOOB 65535) ∧
    mem_write c 65535 v = .error (.memIndexOOB 65535) ∧
    mem_read_u16_be c 65534 = .error (.memIndexOOB 65535) ∧
    (∀ a, a < 65535 → ∃ b, mem_read c a = .ok b) := by
  refine ⟨?_, ?_, ?_, ?_⟩
  · simp [mem_read]
  · simp [mem_write]
  · rw [mem_read_u16_be]
    rw [mem_read_ok c 65534 (by norm_num)]
    rw [bind_ok]
    have hmr : mem_read c (65534 + 1) = .error (.memIndexOOB 65535) := by
      simp [mem_read]
    rw [hmr, bind_err]
  · intro a ha
    exact ⟨c.memory a, mem_read_ok c a ha⟩

/-- Witness for `mem_top_oob`: an in-range read at address 3 succeeds. -/
theorem mem_top_oob_witness :
    ∃ b, mem_read CPU.new 3 = .ok b :=
  (mem_top_oob CPU.new 0).2.2.2 3 (by decide)

/-- Claim C10 (confirmed): when `run` terminates via HALT, the final state
is exactly the fetched state of the last iteration — the final `pc` is the
HALT opcode's address plus 1 (the fetch increment is kept), and no register
or memory cell differs from the state just after fetching the HALT
opcode. -/
theorem run_halt_frame :
    ∀ (n : Nat) (c c' : CPU), run n c = .halted c' →
      ∃ ch, step ch = .ok (.halt c') ∧ (ch.memory ch.pc).val = 0 ∧
        c'.pc = ch.pc + 1 ∧ c'.registers = ch.registers ∧ c'.memory = ch.memory := by
  intro n
  induction n with
  | zero =>
    intro c c' h
    rw [run] at h
    cases h
  | succ m ih =>
    intro c c' h
    rw [run] at h
    cases hs : step c with
    | error e => rw [hs] at h; cases h
    | ok r =>
      cases r with
      | halt x =>
        rw [hs] at h
        cases h
        obtain ⟨h0, hx⟩ := step_halt_inv c c' hs
        refine ⟨c, hs, h0, ?_, ?_, ?_⟩ <;> rw [hx]
      | next c2 =>
        rw [hs] at h
        exact ih c2 c' h

/-- Witness for `run_halt_frame`: a fresh CPU's memory is all zero, so the
first fetch reads HALT and `run 1` halts with `pc = 1`. -/
theorem run_halt_frame_witness :
    run 1 CPU.new = RunResult.halted { CPU.new with pc := 1 } ∧
    (∃ ch, step ch = .ok (.halt { CPU.new with pc := 1 }) ∧ (ch.memory ch.pc).val = 0 ∧
      ({ CPU.new with pc := 1 } : CPU).pc = ch.pc + 1 ∧
      ({ CPU.new with pc := 1 } : CPU).registers = ch.registers ∧
      ({ CPU.new with pc := 1 } : CPU).memory = ch.memory) :=
  ⟨rfl, run_halt_frame 1 CPU.new { CPU.new with pc := 1 } rfl⟩

end Emu
